import Mathlib

/-!
Shallow embedding of the supermarket placement engine from
src/RustFinalProject/src/main.rs.

The Rust program keeps a HashMap from Position (row, shelf, zone, occupied)
to Option Item, where equality and hashing on Position ignore the occupied
flag.  The key set is fixed at initialization to every coordinate of the
MAXPOSITION cube, and only the occupied flag of the stored key and the
resident value ever change.  We therefore model the map as a total function
from spatial coordinates to an Entry record carrying the occupied flag and
the resident; lookups are guarded by the in-range test, which is exactly the
key-set invariant of the Rust map.  The u32 fields are modelled as Nat: no
claim exercises arithmetic anywhere near the u32 overflow boundary, and a
debug build of the source would panic there rather than wrap.

The three indices id_map, name_map and position_map are HashMaps keyed by
small scalar keys; they are modelled as association lists with
insert-overwrite semantics, which preserves HashMap lookup, removal and
cardinality behaviour.
-/

namespace Market

/-- GRID bound, `const MAXPOSITION: u32 = 10` in the source. -/
def MAXPOSITION : Nat := 10

/-- Spatial part of `Position`: (row, shelf, zone).  The occupied flag of the
Rust struct is excluded from equality and hashing in the source, so it lives
in the grid entry instead (see `Entry`). -/
abbrev Coord := Nat × Nat × Nat

/-- The coordinate is inside the pre-generated cube of the Rust map. -/
def inRange (c : Coord) : Bool :=
  decide (c.1 < MAXPOSITION) && decide (c.2.1 < MAXPOSITION) && decide (c.2.2 < MAXPOSITION)

/-- Expiration dates `[u32; 3]` are stored as (day, month, year), matching
indices 0, 1, 2 of the Rust array. -/
abbrev Date := Nat × Nat × Nat

/-- `enum Quality` from the source. -/
inductive Quality
  | Fragile (expiration_date : Date) (row : Nat)
  | Oversized (continuous_zones : Nat)
  | Normal
deriving DecidableEq

/-- `struct Item` from the source. -/
structure Item where
  id : Nat
  name : String
  quantity : Nat
  quality : Quality
deriving DecidableEq

/-- Value state of one grid cell: the occupied flag carried by the stored
Position key, plus the `Option<Item>` value of the map. -/
structure Entry where
  occupied : Bool
  item : Option Item
deriving DecidableEq

/-- The spatially keyed map.  All in-range coordinates always have an entry;
out-of-range lookups answer none (`Grid.get?`). -/
def Grid := Coord → Entry

/-- `map.get_key_value(&pos)` in the source: some entry iff the key exists,
and the key set is always exactly the in-range cube. -/
def Grid.get? (g : Grid) (c : Coord) : Option Entry :=
  if inRange c then some (g c) else none

/-- `map.remove(&key)` followed by `map.insert(key, value)` in the source:
the spatial key keeps its place, its occupied flag and value are replaced. -/
def setCell (g : Grid) (c : Coord) (e : Entry) : Grid :=
  fun x => if x = c then e else g x

/-- The two `Filter` trait implementations of the source, `AvoidTooLarge`
and `AvoidTooFragile`; these are the only filters the program defines. -/
inductive Filter
  | AvoidTooLarge (cutoff : Nat)
  | AvoidTooFragile (cutoff : Nat)
deriving DecidableEq

/-- `Filter::check_allowed` for both implementations.  The grid argument is
received and ignored, as in the source. -/
def Filter.check_allowed (f : Filter) (item : Item) (g : Grid) : Bool :=
  match f with
  | .AvoidTooLarge cutoff =>
      match item.quality with
      | .Fragile _ _ | .Normal => true
      | .Oversized continuous_zones => continuous_zones ≤ cutoff
  | .AvoidTooFragile cutoff =>
      match item.quality with
      | .Oversized _ | .Normal => true
      | .Fragile _ row => row ≥ cutoff

/-- The error enum of the source, restricted to the four variants the engine
itself produces (the IO and parsing variants belong to the excluded CLI). -/
inductive MyError
  | FailedAdd (item : Item)
  | FailedRemove (id : Nat)
  | BlockedByFilter (item : Item)
  | FailedAllocation (item : Item)
deriving DecidableEq

/-- HashMap::insert on an association list: at most one entry per key is
kept, and the new binding wins. -/
def listInsert {α β : Type} [BEq α] (m : List (α × β)) (k : α) (v : β) : List (α × β) :=
  (k, v) :: m.filter (fun kv => !(kv.1 == k))

/-- HashMap::remove on an association list. -/
def listRemove {α β : Type} [BEq α] (m : List (α × β)) (k : α) : List (α × β) :=
  m.filter (fun kv => !(kv.1 == k))

/-- `position_map.get_mut(&id)` followed by `positions.push(temp)`: when the
key is present its vector is extended, otherwise nothing happens. -/
def pushPos (m : List (Nat × List Coord)) (id : Nat) (c : Coord) : List (Nat × List Coord) :=
  m.map (fun kv => if kv.1 = id then (kv.1, kv.2 ++ [c]) else kv)

/-- `struct Placement`: grid plus the three derived indices and the filter
chain.  The allocation strategy field always holds the single RoundRobin
implementation, so it is not carried as data. -/
structure State where
  grid : Grid
  id_map : List (Nat × Item)
  name_map : List (String × Item)
  position_map : List (Nat × List Coord)
  filter_list : List Filter

/-- `Placement::new()`: every cube coordinate pre-inserted unoccupied with no
resident, empty indices, empty filter chain. -/
def Placement.new : State :=
  { grid := fun _ => ⟨false, none⟩
    id_map := []
    name_map := []
    position_map := []
    filter_list := [] }

/-- `Placement::is_allowed_by_filters`. -/
def is_allowed_by_filters (st : State) (item : Item) : Bool :=
  st.filter_list.all (fun filt => filt.check_allowed item st.grid)

/-- `RoundRobin::is_position_valid`.  For Oversized items the source loop
over the span contains an unconditional `return flag` at the end of its
first iteration, so only the first span cell is ever inspected; when the
span is 0 the loop body never runs and the trailing `false` is returned.
The translation reproduces this behaviour exactly. -/
def is_position_valid (pos : Coord) (item : Item) (g : Grid) : Bool :=
  match item.quality with
  | .Fragile _ row => decide (pos.1 < row)
  | .Oversized continuous_zones =>
      if pos.2.2 + continuous_zones > MAXPOSITION then
        false
      else if continuous_zones = 0 then
        false
      else
        match Grid.get? g (pos.1, pos.2.1, pos.2.2) with
        | some e => !e.occupied
        | none => false
  | .Normal => true

/-- The `iproduct!(0..MAXPOSITION, 0..MAXPOSITION, 0..MAXPOSITION)` scan
order: row outermost, then shelf, then zone. -/
def allPositions : List Coord :=
  (List.range MAXPOSITION).flatMap (fun i =>
    (List.range MAXPOSITION).flatMap (fun j =>
      (List.range MAXPOSITION).map (fun k => (i, j, k))))

/-- The per-coordinate test of the allocation loop: skip missing keys, skip
occupied keys, accept the first coordinate passing `is_position_valid`. -/
def allocPred (item : Item) (g : Grid) (pos : Coord) : Bool :=
  match Grid.get? g pos with
  | some e => !e.occupied && is_position_valid pos item g
  | none => false

/-- `RoundRobin::allocate` (the `Strategy` implementation): first coordinate
of the scan order whose key is unoccupied and position valid, else none.  It
reads the map through a shared reference only, hence the pure signature. -/
def allocate (item : Item) (g : Grid) : Option Coord :=
  allPositions.find? (allocPred item g)

/-- One iteration of the Oversized placement loop of `Placement::add_item`:
at the anchor zone the resident is stored and the position list is reset to
the anchor, at later zones the cell is claimed resident-free and the
coordinate appended to the list. -/
def oversizedStep (item : Item) (row shelf anchorZone : Nat) (st : State) (k : Nat) : State :=
  if k = anchorZone then
    { st with
        grid := setCell st.grid (row, shelf, k) ⟨true, some item⟩
        position_map := listInsert st.position_map item.id [(row, shelf, k)] }
  else
    { st with
        grid := setCell st.grid (row, shelf, k) ⟨true, none⟩
        position_map := pushPos st.position_map item.id (row, shelf, k) }

/-- The mutation part of `Placement::add_item` once a position is allocated:
index inserts, then the quality-specific grid and position-map updates. -/
def add_core (st : State) (item : Item) (position : Coord) : State :=
  let st1 : State :=
    { st with
        id_map := listInsert st.id_map item.id item
        name_map := listInsert st.name_map item.name item }
  match item.quality with
  | .Normal | .Fragile _ _ =>
      { st1 with
          grid := setCell st1.grid position ⟨true, some item⟩
          position_map := listInsert st1.position_map item.id [position] }
  | .Oversized continuous_zones =>
      (List.range' position.2.2 continuous_zones).foldl
        (oversizedStep item position.1 position.2.1 position.2.2) st1

/-- `Placement::add_item`.  Returns the Rust `Result<(), MyError>` as
`Option MyError` (none = Ok) together with the state after the call. -/
def add_item (st : State) (item : Item) : Option MyError × State :=
  if !(is_allowed_by_filters st item) then
    (some (.BlockedByFilter item), st)
  else
    match allocate item st.grid with
    | none => (some (.FailedAllocation item), st)
    | some position =>
        let st2 := add_core st item position
        match Grid.get? st2.grid position with
        | none => (some (.FailedAdd item), st2)
        | some _ => (none, st2)

/-- `Placement::remove_item`: reject absent ids, otherwise clear every
recorded coordinate and drop the three index entries. -/
def remove_item (st : State) (id : Nat) : Option MyError × State :=
  match st.id_map.lookup id with
  | none => (some (.FailedRemove id), st)
  | some item =>
      let positions := (st.position_map.lookup id).getD []
      (none,
        { st with
            grid := positions.foldl (fun g c => setCell g c ⟨false, none⟩) st.grid
            name_map := listRemove st.name_map item.name
            id_map := listRemove st.id_map id
            position_map := listRemove st.position_map id })

/-- The residents collected by iterating the grid map values, as
`alphabetical` and `check_expired_products` do.  The HashMap iteration order
is arbitrary; the cube scan order is used as one concrete enumeration. -/
def residents (st : State) : List Item :=
  allPositions.filterMap (fun c => (st.grid c).item)

/-- `Placement::alphabetical`: residents sorted by lowercased name. -/
def alphabetical (st : State) : List Item :=
  (residents st).mergeSort (fun a b => a.name.toLower ≤ b.name.toLower)

/-- The expiry comparison of `check_expired_products`, literally the three
disjuncts of the source condition; `current` and `itemDate` are
(day, month, year). -/
def isExpired (current itemDate : Date) : Bool :=
  decide (current.2.2 > itemDate.2.2) ||
  (decide (current.2.2 = itemDate.2.2) && decide (current.2.1 > itemDate.2.1)) ||
  (decide (current.2.2 = itemDate.2.2) && decide (current.2.1 = itemDate.2.1) &&
    decide (current.1 ≥ itemDate.1))

/-- Whether a resident is a Fragile item reported expired against the
reference date. -/
def fragileExpired (current : Date) (item : Item) : Bool :=
  match item.quality with
  | .Fragile expiration_date _ => isExpired current expiration_date
  | _ => false

/-- `Placement::check_expired_products`: the expired Fragile residents, none
when there are none.  The Rust HashSet is modelled as the collected list;
all claims about it are stated through membership. -/
def check_expired_products (st : State) (current : Date) : Option (List Item) :=
  let expired := (residents st).filter (fragileExpired current)
  if expired.isEmpty then none else some expired

/-- `Placement::position_search`: clone of the recorded coordinate list. -/
def position_search (st : State) (id : Nat) : Option (List Coord) :=
  st.position_map.lookup id

/-- `Placement::id_search`. -/
def id_search (st : State) (id : Nat) : Option Item :=
  st.id_map.lookup id

/-- `Placement::name_search`. -/
def name_search (st : State) (name : String) : Option Item :=
  st.name_map.lookup name

/-- Ascending (row, shelf, zone) lexicographic order on coordinates, as the
specification describes the scan order. -/
def lexLt (a b : Coord) : Prop :=
  a.1 < b.1 ∨ (a.1 = b.1 ∧ (a.2.1 < b.2.1 ∨ (a.2.1 = b.2.1 ∧ a.2.2 < b.2.2)))

/-- Calendar order on (day, month, year) dates: year most significant, then
month, then day; modelled from the words of the specification for
comparison with the source comparison `isExpired`. -/
def dateOnOrBefore (a b : Date) : Prop :=
  a.2.2 < b.2.2 ∨ (a.2.2 = b.2.2 ∧ (a.2.1 < b.2.1 ∨ (a.2.1 = b.2.1 ∧ a.1 ≤ b.1)))

lemma lexLt_asymm {a b : Coord} (h : lexLt a b) : ¬ lexLt b a := by
  obtain ⟨a1, a2, a3⟩ := a
  obtain ⟨b1, b2, b3⟩ := b
  simp only [lexLt] at h ⊢
  omega

lemma lookup_cons {α β : Type} [BEq α] (k : α) (a : α × β) (es : List (α × β)) :
    List.lookup k (a :: es) =
      match k == a.1 with
      | true => some a.2
      | false => List.lookup k es := by
  obtain ⟨x, y⟩ := a
  rfl

lemma lookup_listInsert_self {α β : Type} [BEq α] [LawfulBEq α]
    (m : List (α × β)) (k : α) (v : β) :
    (listInsert m k v).lookup k = some v := by
  simp [listInsert, List.lookup]

lemma lookup_filter_ne {α β : Type} [BEq α] [LawfulBEq α]
    (m : List (α × β)) (k k' : α) (h : k' ≠ k) :
    (m.filter (fun kv => !(kv.1 == k))).lookup k' = m.lookup k' := by
  induction m with
  | nil => rfl
  | cons a m ih =>
    by_cases hk : a.1 = k
    · have h1 : (a.1 == k) = true := beq_iff_eq.mpr hk
      have h2 : (k' == a.1) = false := by
        rw [beq_eq_false_iff_ne]
        exact fun hx => h (hx.trans hk)
      rw [List.filter_cons, h1]
      simp only [Bool.not_true, if_neg (by simp : ¬ (false = true))]
      rw [ih, lookup_cons, h2]
    · have h1 : (a.1 == k) = false := beq_eq_false_iff_ne.mpr hk
      rw [List.filter_cons, h1]
      simp only [Bool.not_false]
      rw [if_pos (by trivial), lookup_cons, lookup_cons, ih]

lemma lookup_listInsert_ne {α β : Type} [BEq α] [LawfulBEq α]
    (m : List (α × β)) (k k' : α) (v : β) (h : k' ≠ k) :
    (listInsert m k v).lookup k' = m.lookup k' := by
  have h2 : (k' == k) = false := beq_eq_false_iff_ne.mpr h
  rw [listInsert, lookup_cons, h2]
  exact lookup_filter_ne m k k' h

lemma lookup_pushPos (m : List (Nat × List Coord)) (id : Nat) (c : Coord) :
    (pushPos m id c).lookup id = (m.lookup id).map (fun l => l ++ [c]) := by
  induction m with
  | nil => rfl
  | cons a m ih =>
    rw [pushPos, List.map_cons]
    by_cases hk : a.1 = id
    · have h2 : (id == a.1) = true := beq_iff_eq.mpr hk.symm
      rw [if_pos hk, lookup_cons, lookup_cons]
      simp only [h2]
      rfl
    · have h2 : (id == a.1) = false := by
        rw [beq_eq_false_iff_ne]
        exact fun hx => hk hx.symm
      rw [if_neg hk, lookup_cons, lookup_cons]
      simp only [h2]
      exact ih

lemma mem_allPositions (c : Coord) : c ∈ allPositions ↔ inRange c = true := by
  obtain ⟨a, b, k⟩ := c
  simp only [allPositions, List.mem_flatMap, List.mem_map, List.mem_range, inRange,
    Bool.and_eq_true, decide_eq_true_eq]
  constructor
  · rintro ⟨i, hi, j, hj, k', hk', heq⟩
    obtain ⟨rfl, rfl, rfl⟩ : i = a ∧ j = b ∧ k' = k := by
      simpa [Prod.ext_iff] using heq
    exact ⟨⟨hi, hj⟩, hk'⟩
  · rintro ⟨⟨ha, hb⟩, hk⟩
    exact ⟨a, ha, b, hb, k, hk, rfl⟩

lemma pairwise_flatMap_of {α β : Type} {R : β → β → Prop} {S : α → α → Prop}
    (l : List α) (f : α → List β)
    (hl : l.Pairwise S) (hf : ∀ a, (f a).Pairwise R)
    (hcross : ∀ a b, S a b → ∀ x ∈ f a, ∀ y ∈ f b, R x y) :
    (l.flatMap f).Pairwise R := by
  induction l with
  | nil => simp
  | cons a l ih =>
    rw [List.flatMap_cons, List.pairwise_append]
    rcases List.pairwise_cons.mp hl with ⟨ha, hl2⟩
    refine ⟨hf a, ih hl2, ?_⟩
    intro x hx y hy
    rcases List.mem_flatMap.mp hy with ⟨b, hb, hyb⟩
    exact hcross a b (ha b hb) x hx y hyb

lemma allPositions_pairwise : allPositions.Pairwise lexLt := by
  unfold allPositions
  apply pairwise_flatMap_of _ _ (List.pairwise_lt_range _)
  · intro i
    apply pairwise_flatMap_of _ _ (List.pairwise_lt_range _)
    · intro j
      rw [List.pairwise_map]
      apply (List.pairwise_lt_range _).imp
      intro k1 k2 hk
      exact Or.inr ⟨rfl, Or.inr ⟨rfl, hk⟩⟩
    · intro j1 j2 hj x hx y hy
      rcases List.mem_map.mp hx with ⟨k1, _, rfl⟩
      rcases List.mem_map.mp hy with ⟨k2, _, rfl⟩
      exact Or.inr ⟨rfl, Or.inl hj⟩
  · intro i1 i2 hi x hx y hy
    rcases List.mem_flatMap.mp hx with ⟨j1, _, hx1⟩
    rcases List.mem_flatMap.mp hy with ⟨j2, _, hy1⟩
    rcases List.mem_map.mp hx1 with ⟨k1, _, rfl⟩
    rcases List.mem_map.mp hy1 with ⟨k2, _, rfl⟩
    exact Or.inl hi

lemma find_first_sorted {α : Type} {R : α → α → Prop}
    (hasymm : ∀ {a b : α}, R a b → ¬ R b a) (good : α → Bool) :
    ∀ (l : List α), l.Pairwise R → ∀ a : α,
      (l.find? good = some a ↔
        a ∈ l ∧ good a = true ∧ ∀ b ∈ l, R b a → good b = false) := by
  intro l
  induction l with
  | nil => simp
  | cons x xs ih =>
    intro hp a
    rcases List.pairwise_cons.mp hp with ⟨hx, hxs⟩
    by_cases hgx : good x = true
    · rw [List.find?_cons_of_pos _ hgx]
      constructor
      · intro h
        have hax : x = a := by simpa using h
        subst hax
        refine ⟨List.mem_cons_self x xs, hgx, ?_⟩
        intro b hb hR
        rcases List.mem_cons.mp hb with rfl | hb
        · exact absurd hR (hasymm hR)
        · exact absurd hR (hasymm (hx b hb))
      · rintro ⟨ha, _, hmin⟩
        rcases List.mem_cons.mp ha with rfl | ha
        · rfl
        · exact absurd hgx (by simp [hmin x (List.mem_cons_self x xs) (hx a ha)])
    · have hgx2 : good x = false := by
        cases hg : good x
        · rfl
        · exact absurd hg hgx
      rw [List.find?_cons_of_neg _ (by simp [hgx2])]
      rw [ih hxs a]
      constructor
      · rintro ⟨ha, hga, hmin⟩
        refine ⟨List.mem_cons_of_mem _ ha, hga, ?_⟩
        intro b hb hR
        rcases List.mem_cons.mp hb with rfl | hb
        · exact hgx2
        · exact hmin b hb hR
      · rintro ⟨ha, hga, hmin⟩
        rcases List.mem_cons.mp ha with rfl | ha
        · exact absurd hga hgx
        · exact ⟨ha, hga, fun b hb hR => hmin b (List.mem_cons_of_mem _ hb) hR⟩

lemma allocPred_inRange {item : Item} {g : Grid} {q : Coord} (h : inRange q = true) :
    allocPred item g q = (!(g q).occupied && is_position_valid q item g) := by
  simp [allocPred, Grid.get?, h]

lemma allocate_some_facts {item : Item} {g : Grid} {p : Coord}
    (h : allocate item g = some p) :
    inRange p = true ∧ (g p).occupied = false ∧ is_position_valid p item g = true := by
  have hmem := List.mem_of_find?_eq_some h
  have hpred := List.find?_some h
  have hin : inRange p = true := (mem_allPositions p).mp hmem
  rw [allocPred_inRange hin, Bool.and_eq_true, Bool.not_eq_true'] at hpred
  exact ⟨hin, hpred.1, hpred.2⟩

lemma setCell_self (g : Grid) (c : Coord) (e : Entry) : setCell g c e c = e := by
  simp [setCell]

lemma setCell_ne (g : Grid) (c x : Coord) (e : Entry) (h : x ≠ c) :
    setCell g c e x = g x := by
  simp [setCell, h]

lemma oversized_fold (item : Item) (r s z : Nat) :
    ∀ (ks : List Nat) (st : State) (acc : List Coord),
      (∀ k ∈ ks, z < k) → ks.Pairwise (· < ·) →
      st.position_map.lookup item.id = some acc →
      ((ks.foldl (oversizedStep item r s z) st).position_map.lookup item.id
          = some (acc ++ ks.map (fun k => (r, s, k)))) ∧
      (∀ k ∈ ks, (ks.foldl (oversizedStep item r s z) st).grid (r, s, k) = ⟨true, none⟩) ∧
      (∀ c : Coord, c ∉ ks.map (fun k => (r, s, k)) →
          (ks.foldl (oversizedStep item r s z) st).grid c = st.grid c) ∧
      ((ks.foldl (oversizedStep item r s z) st).id_map = st.id_map) ∧
      ((ks.foldl (oversizedStep item r s z) st).name_map = st.name_map) ∧
      ((ks.foldl (oversizedStep item r s z) st).filter_list = st.filter_list) := by
  intro ks
  induction ks with
  | nil =>
    intro st acc _ _ hacc
    simpa using hacc
  | cons k ks ih =>
    intro st acc hmem hpw hacc
    have hkz : z < k := hmem k (List.mem_cons_self k ks)
    have hkne : k ≠ z := fun hx => absurd (hx ▸ hkz) (lt_irrefl z)
    rcases List.pairwise_cons.mp hpw with ⟨hklt, hpw2⟩
    have hstep : oversizedStep item r s z st k =
        { st with
            grid := setCell st.grid (r, s, k) ⟨true, none⟩
            position_map := pushPos st.position_map item.id (r, s, k) } := by
      rw [oversizedStep, if_neg hkne]
    rw [List.foldl_cons, hstep]
    have hacc2 :
        ({ st with
            grid := setCell st.grid (r, s, k) ⟨true, none⟩
            position_map := pushPos st.position_map item.id (r, s, k) } :
          State).position_map.lookup item.id = some (acc ++ [(r, s, k)]) := by
      show (pushPos st.position_map item.id (r, s, k)).lookup item.id = _
      rw [lookup_pushPos, hacc]
      rfl
    obtain ⟨h1, h2, h3, h4, h5, h6⟩ :=
      ih { st with
            grid := setCell st.grid (r, s, k) ⟨true, none⟩
            position_map := pushPos st.position_map item.id (r, s, k) }
        (acc ++ [(r, s, k)])
        (fun k2 hk2 => hmem k2 (List.mem_cons_of_mem _ hk2)) hpw2 hacc2
    refine ⟨?_, ?_, ?_, h4, h5, h6⟩
    · rw [h1, List.map_cons, List.append_assoc]
      rfl
    · intro k2 hk2
      rcases List.mem_cons.mp hk2 with rfl | hk2
      · have hnot : (r, s, k2) ∉ ks.map (fun k3 => (r, s, k3)) := by
          intro hx
          rcases List.mem_map.mp hx with ⟨k3, hk3, heq⟩
          have : k3 = k2 := by simpa [Prod.ext_iff] using heq
          exact absurd (hklt k3 hk3) (by omega)
        rw [h3 _ hnot]
        exact setCell_self st.grid (r, s, k2) ⟨true, none⟩
      · exact h2 k2 hk2
    · intro c hc
      rw [List.map_cons] at hc
      have hc1 : c ≠ (r, s, k) := fun hx => hc (hx ▸ List.mem_cons_self _ _)
      have hc2 : c ∉ ks.map (fun k3 => (r, s, k3)) := fun hx => hc (List.mem_cons_of_mem _ hx)
      rw [h3 c hc2]
      exact setCell_ne st.grid (r, s, k) c ⟨true, none⟩ hc1

lemma oversized_fold_occ (item : Item) (r s z : Nat) :
    ∀ (ks : List Nat) (st : State) (c : Coord),
      (st.grid c).occupied = true →
      ((ks.foldl (oversizedStep item r s z) st).grid c).occupied = true := by
  intro ks
  induction ks with
  | nil => intro st c h; simpa using h
  | cons k ks ih =>
    intro st c h
    rw [List.foldl_cons]
    apply ih
    by_cases hc : c = (r, s, k)
    · subst hc
      unfold oversizedStep
      split <;> simp [setCell_self]
    · unfold oversizedStep
      split <;>
        · show (setCell st.grid (r, s, k) _ c).occupied = true
          rw [setCell_ne _ _ _ _ hc]
          exact h

lemma add_item_ok_elim {st : State} {item : Item}
    (h : (add_item st item).1 = none) :
    is_allowed_by_filters st item = true ∧
    ∃ p, allocate item st.grid = some p ∧ (add_item st item).2 = add_core st item p := by
  rw [add_item] at h ⊢
  cases hb : is_allowed_by_filters st item with
  | false =>
    rw [hb] at h
    simp at h
  | true =>
    rw [hb] at h
    simp only [Bool.not_true] at h ⊢
    rw [if_neg (by simp : ¬ (false = true))] at h ⊢
    cases halloc : allocate item st.grid with
    | none =>
      rw [halloc] at h
      simp at h
    | some p =>
      refine ⟨by trivial, p, rfl, ?_⟩
      show (match Grid.get? (add_core st item p).grid p with
            | none => (some (MyError.FailedAdd item), add_core st item p)
            | some _ => (none, add_core st item p)).2 = add_core st item p
      cases Grid.get? (add_core st item p).grid p <;> rfl

lemma oversized_valid_facts {p : Coord} {item : Item} {g : Grid} {n : Nat}
    (hq : item.quality = Quality.Oversized n)
    (hvalid : is_position_valid p item g = true) :
    p.2.2 + n ≤ MAXPOSITION ∧ n ≠ 0 := by
  simp only [is_position_valid, hq] at hvalid
  by_cases h1 : p.2.2 + n > MAXPOSITION
  · simp [h1] at hvalid
  · by_cases h2 : n = 0
    · simp [h1, h2] at hvalid
    · exact ⟨by omega, h2⟩

lemma oversized_fold_indices (item : Item) (r s z : Nat) :
    ∀ (ks : List Nat) (st : State),
      ((ks.foldl (oversizedStep item r s z) st).id_map = st.id_map) ∧
      ((ks.foldl (oversizedStep item r s z) st).name_map = st.name_map) ∧
      ((ks.foldl (oversizedStep item r s z) st).filter_list = st.filter_list) := by
  intro ks
  induction ks with
  | nil => intro st; exact ⟨rfl, rfl, rfl⟩
  | cons k ks ih =>
    intro st
    rw [List.foldl_cons]
    obtain ⟨h1, h2, h3⟩ := ih (oversizedStep item r s z st k)
    rw [h1, h2, h3]
    unfold oversizedStep
    split
    · exact ⟨rfl, rfl, rfl⟩
    · exact ⟨rfl, rfl, rfl⟩

lemma add_core_indices (st : State) (item : Item) (p : Coord) :
    (add_core st item p).id_map = listInsert st.id_map item.id item ∧
    (add_core st item p).name_map = listInsert st.name_map item.name item ∧
    (add_core st item p).filter_list = st.filter_list := by
  rw [add_core]
  cases hq : item.quality with
  | Fragile d mr => exact ⟨rfl, rfl, rfl⟩
  | Normal => exact ⟨rfl, rfl, rfl⟩
  | Oversized n =>
    obtain ⟨h1, h2, h3⟩ := oversized_fold_indices item p.1 p.2.1 p.2.2
      (List.range' p.2.2 n)
      { st with
          id_map := listInsert st.id_map item.id item
          name_map := listInsert st.name_map item.name item }
    exact ⟨h1, h2, h3⟩

lemma add_core_occ_mono (st : State) (item : Item) (p : Coord) (c : Coord)
    (h : (st.grid c).occupied = true) :
    ((add_core st item p).grid c).occupied = true := by
  rw [add_core]
  cases hq : item.quality with
  | Fragile d mr =>
    show (setCell st.grid p ⟨true, some item⟩ c).occupied = true
    by_cases hc : c = p
    · subst hc; rw [setCell_self]
    · rw [setCell_ne _ _ _ _ hc]; exact h
  | Normal =>
    show (setCell st.grid p ⟨true, some item⟩ c).occupied = true
    by_cases hc : c = p
    · subst hc; rw [setCell_self]
    · rw [setCell_ne _ _ _ _ hc]; exact h
  | Oversized n =>
    exact oversized_fold_occ item p.1 p.2.1 p.2.2 (List.range' p.2.2 n) _ c h

lemma add_core_spec (st : State) (item : Item) (p : Coord)
    (hin : inRange p = true)
    (hvalid : is_position_valid p item st.grid = true) :
    ∃ l : List Coord,
      (add_core st item p).position_map.lookup item.id = some l ∧
      l.head? = some p ∧
      (add_core st item p).grid p = ⟨true, some item⟩ ∧
      (∀ c ∈ l, inRange c = true ∧ ((add_core st item p).grid c).occupied = true) ∧
      (match item.quality with
       | Quality.Oversized n =>
           l.length = n ∧
           l = (List.range' p.2.2 n).map (fun k => (p.1, p.2.1, k)) ∧
           ∀ c ∈ l.tail, ((add_core st item p).grid c).item = none
       | _ => l = [p]) := by
  obtain ⟨r, s, z⟩ := p
  cases hq : item.quality with
  | Fragile d mr =>
    refine ⟨[(r, s, z)], ?_, rfl, ?_, ?_, ?_⟩
    · rw [add_core, hq]
      exact lookup_listInsert_self ..
    · rw [add_core, hq]
      exact setCell_self ..
    · intro c hc
      rcases List.mem_singleton.mp hc with rfl
      refine ⟨hin, ?_⟩
      rw [add_core, hq]
      show (setCell _ (r, s, z) ⟨true, some item⟩ (r, s, z)).occupied = true
      rw [setCell_self]
    · simp only [hq]
  | Normal =>
    refine ⟨[(r, s, z)], ?_, rfl, ?_, ?_, ?_⟩
    · rw [add_core, hq]
      exact lookup_listInsert_self ..
    · rw [add_core, hq]
      exact setCell_self ..
    · intro c hc
      rcases List.mem_singleton.mp hc with rfl
      refine ⟨hin, ?_⟩
      rw [add_core, hq]
      show (setCell _ (r, s, z) ⟨true, some item⟩ (r, s, z)).occupied = true
      rw [setCell_self]
    · simp only [hq]
  | Oversized n =>
    obtain ⟨hz, hn⟩ := oversized_valid_facts hq hvalid
    obtain ⟨m, rfl⟩ : ∃ m, n = m + 1 := ⟨n - 1, by omega⟩
    have hz2 : z + (m + 1) ≤ 10 := hz
    simp only [inRange, Bool.and_eq_true, decide_eq_true_eq, MAXPOSITION] at hin
    obtain ⟨⟨hr, hs⟩, hzr⟩ := hin
    have hcons : List.range' z (m + 1) = z :: List.range' (z + 1) m := rfl
    have hstep :
        ∀ st0 : State, oversizedStep item r s z st0 z =
          { st0 with
              grid := setCell st0.grid (r, s, z) ⟨true, some item⟩
              position_map := listInsert st0.position_map item.id [(r, s, z)] } := by
      intro st0
      rw [oversizedStep, if_pos rfl]
    have hmemks : ∀ k ∈ List.range' (z + 1) m, z < k := by
      intro k hk
      have := List.mem_range'_1.mp hk
      omega
    have hbody :
        add_core st item (r, s, z) =
          (List.range' (z + 1) m).foldl (oversizedStep item r s z)
            { st with
                id_map := listInsert st.id_map item.id item
                name_map := listInsert st.name_map item.name item
                grid := setCell st.grid (r, s, z) ⟨true, some item⟩
                position_map := listInsert st.position_map item.id [(r, s, z)] } := by
      rw [add_core, hq]
      show (List.range' z (m + 1)).foldl (oversizedStep item r s z) _ = _
      rw [hcons, List.foldl_cons, hstep]
    obtain ⟨h1, h2, h3, _, _, _⟩ :=
      oversized_fold item r s z (List.range' (z + 1) m)
        { st with
            id_map := listInsert st.id_map item.id item
            name_map := listInsert st.name_map item.name item
            grid := setCell st.grid (r, s, z) ⟨true, some item⟩
            position_map := listInsert st.position_map item.id [(r, s, z)] }
        [(r, s, z)] hmemks (List.pairwise_lt_range' ..)
        (lookup_listInsert_self ..)
    have hanchor_notin :
        ((r, s, z) : Coord) ∉ (List.range' (z + 1) m).map (fun k => (r, s, k)) := by
      intro hx
      rcases List.mem_map.mp hx with ⟨k3, hk3, heq⟩
      have hk3z : k3 = z := by simpa [Prod.ext_iff] using heq
      exact absurd (hmemks k3 hk3) (by omega)
    have hgrid_anchor : (add_core st item (r, s, z)).grid (r, s, z) = ⟨true, some item⟩ := by
      rw [hbody, h3 _ hanchor_notin]
      exact setCell_self ..
    refine ⟨(r, s, z) :: (List.range' (z + 1) m).map (fun k => (r, s, k)),
      ?_, rfl, hgrid_anchor, ?_, ?_⟩
    · rw [hbody]
      exact h1
    · intro c hc
      rcases List.mem_cons.mp hc with rfl | hc
      · refine ⟨?_, ?_⟩
        · simp only [inRange, Bool.and_eq_true, decide_eq_true_eq, MAXPOSITION]
          omega
        · rw [hgrid_anchor]
      · rcases List.mem_map.mp hc with ⟨k, hk, rfl⟩
        have hkb := List.mem_range'_1.mp hk
        constructor
        · simp only [inRange, Bool.and_eq_true, decide_eq_true_eq, MAXPOSITION]
          omega
        · rw [hbody, h2 k hk]
    · simp only [hq]
      refine ⟨?_, ?_, ?_⟩
      · simp [List.length_range']
      · rw [hcons, List.map_cons]
      · intro c hc
        rcases List.mem_map.mp hc with ⟨k, hk, rfl⟩
        rw [hbody, h2 k hk]

/-- Concrete operation sequence reaching a state where a free cell is
followed by an occupied cell on the same row and shelf: two Normal adds
followed by removal of the first. -/
def itemA : Item := ⟨1, "ItemA", 1, Quality.Normal⟩

def itemB : Item := ⟨2, "ItemB", 1, Quality.Normal⟩

def itemC : Item := ⟨3, "ItemC", 1, Quality.Oversized 2⟩

def stA : State := (add_item Placement.new itemA).2

def stB : State := (add_item stA itemB).2

def stR : State := (remove_item stB 1).2

def stC : State := (add_item stR itemC).2

/-- Claim C1: the claim states that the Oversized validity test succeeds only
when every one of the span cells is unoccupied.  The code refutes this: in
the reachable state stR the cell (0,0,1) is occupied, yet the validity test
accepts anchor (0,0,0) for a span-2 Oversized item, because the source
returns the loop flag at the end of the first iteration and never inspects
the rest of the span; the subsequent add succeeds instead of failing. -/
theorem claim_C1 :
    (add_item Placement.new itemA).1 = none ∧
    (add_item stA itemB).1 = none ∧
    (remove_item stB 1).1 = none ∧
    (stR.grid (0, 0, 0)).occupied = false ∧
    (stR.grid (0, 0, 1)).occupied = true ∧
    is_position_valid (0, 0, 0) itemC stR.grid = true ∧
    (add_item stR itemC).1 = none := by
  decide

/-- Claim C2: the claim states that no two currently present items ever share
a coordinate after successful operations from a fresh engine.  The code
refutes this: after add itemA, add itemB, remove 1, add itemC (Oversized,
span 2), the coordinate (0,0,1) is recorded both for item 2 and for item 3,
while both ids are still present in the id index. -/
theorem claim_C2 :
    id_search stC 2 = some itemB ∧
    id_search stC 3 = some itemC ∧
    position_search stC 2 = some [(0, 0, 1)] ∧
    position_search stC 3 = some [(0, 0, 0), (0, 0, 1)] := by
  decide

set_option maxRecDepth 1000000 in
/-- Claim C8: the claim states that alphabetical always returns as many items
as there are ids in the id index.  The code refutes this in the reachable
state stC: the id index holds the two ids 2 and 3, but the Oversized add
erased the resident of item 2 from the grid, so alphabetical returns a
single item. -/
theorem claim_C8 :
    stC.id_map.length = 2 ∧ (alphabetical stC).length = 1 := by
  constructor
  · decide
  · rw [alphabetical, List.length_mergeSort]
    decide

/-- Claim C7: removing an id absent from the id index returns FailedRemove
carrying that id and leaves the grid and all three indices unchanged: the
whole engine state is returned as it was. -/
theorem claim_C7 (st : State) (id : Nat) (h : st.id_map.lookup id = none) :
    remove_item st id = (some (MyError.FailedRemove id), st) := by
  rw [remove_item, h]

theorem claim_C7_witness :
    remove_item Placement.new 5 = (some (MyError.FailedRemove 5), Placement.new) :=
  claim_C7 Placement.new 5 rfl

/-- Claim C10: for an Oversized item of span 0 the validity test is false at
every coordinate of every grid (the span loop body never runs and the
function falls through to false), hence allocate finds nothing and add_item
fails with FailedAllocation whenever the filters allow the item. -/
theorem claim_C10 (st : State) (item : Item)
    (hq : item.quality = Quality.Oversized 0)
    (hadm : is_allowed_by_filters st item = true) :
    (∀ (g : Grid) (pos : Coord), is_position_valid pos item g = false) ∧
    allocate item st.grid = none ∧
    (add_item st item).1 = some (MyError.FailedAllocation item) := by
  have hvalid : ∀ (g : Grid) (pos : Coord), is_position_valid pos item g = false := by
    intro g pos
    simp only [is_position_valid, hq]
    split
    · rfl
    · simp
  have halloc : allocate item st.grid = none := by
    rw [allocate]
    apply List.find?_eq_none.mpr
    intro pos hpos
    rw [allocPred_inRange ((mem_allPositions pos).mp hpos), hvalid st.grid pos,
      Bool.and_false]
    simp
  refine ⟨hvalid, halloc, ?_⟩
  rw [add_item, hadm]
  simp only [Bool.not_true]
  rw [if_neg (by simp : ¬ (false = true)), halloc]

def itemZero : Item := ⟨9, "Zero", 1, Quality.Oversized 0⟩

theorem claim_C10_witness :
    (add_item Placement.new itemZero).1 = some (MyError.FailedAllocation itemZero) :=
  (claim_C10 Placement.new itemZero rfl rfl).2.2

/-- Claim C5: add_item answers BlockedByFilter carrying the rejected item
exactly when some filter of the chain rejects it, and in that case the state
is returned unchanged; the span filter at cutoff 3 rejects an Oversized item
of span 4, the fragility filter at cutoff 2 rejects a Fragile item with max
row 1, and Normal items pass both filters at every cutoff. -/
theorem claim_C5 (st : State) (item : Item) :
    ((add_item st item).1 = some (MyError.BlockedByFilter item) ↔
        ∃ f ∈ st.filter_list, f.check_allowed item st.grid = false) ∧
    ((add_item st item).1 = some (MyError.BlockedByFilter item) →
        (add_item st item).2 = st) ∧
    (∀ (g : Grid) (i qty : Nat) (nm : String),
        Filter.check_allowed (Filter.AvoidTooLarge 3) ⟨i, nm, qty, Quality.Oversized 4⟩ g
          = false) ∧
    (∀ (g : Grid) (i qty : Nat) (nm : String) (d : Date),
        Filter.check_allowed (Filter.AvoidTooFragile 2) ⟨i, nm, qty, Quality.Fragile d 1⟩ g
          = false) ∧
    (∀ (g : Grid) (i qty cL cF : Nat) (nm : String),
        Filter.check_allowed (Filter.AvoidTooLarge cL) ⟨i, nm, qty, Quality.Normal⟩ g
          = true ∧
        Filter.check_allowed (Filter.AvoidTooFragile cF) ⟨i, nm, qty, Quality.Normal⟩ g
          = true) := by
  have hne : ∀ st2 : State,
      (match allocate item st.grid with
        | none => (some (MyError.FailedAllocation item), st)
        | some position =>
            let st3 := add_core st item position
            match Grid.get? st3.grid position with
            | none => (some (MyError.FailedAdd item), st3)
            | some _ => (none, st3)).1 ≠ some (MyError.BlockedByFilter item) := by
    intro _
    cases halloc : allocate item st.grid with
    | none => simp
    | some p =>
      cases hget : Grid.get? (add_core st item p).grid p with
      | none => simp [hget]
      | some e => simp [hget]
  refine ⟨?_, ?_, fun g i qty nm => rfl, fun g i qty nm d => rfl,
    fun g i qty cL cF nm => ⟨rfl, rfl⟩⟩
  · rw [add_item]
    cases hb : is_allowed_by_filters st item with
    | false =>
      simp only [Bool.not_false]
      rw [if_pos (by trivial)]
      constructor
      · intro _
        obtain ⟨f, hf, hfa⟩ := List.all_eq_false.mp hb
        exact ⟨f, hf, by simpa using hfa⟩
      · intro _
        rfl
    | true =>
      simp only [Bool.not_true]
      rw [if_neg (by simp : ¬ (false = true))]
      constructor
      · intro hres
        exact absurd hres (hne st)
      · rintro ⟨f, hf, hfa⟩
        have := List.all_eq_true.mp hb f hf
        rw [hfa] at this
        exact absurd this (by simp)
  · rw [add_item]
    cases hb : is_allowed_by_filters st item with
    | false =>
      simp only [Bool.not_false]
      rw [if_pos (by trivial)]
      intro _
      rfl
    | true =>
      simp only [Bool.not_true]
      rw [if_neg (by simp : ¬ (false = true))]
      intro hres
      exact absurd hres (hne st)

def stFilters : State :=
  { Placement.new with
      filter_list := [Filter.AvoidTooLarge 3, Filter.AvoidTooFragile 2] }

def itemBig : Item := ⟨4, "Big", 1, Quality.Oversized 4⟩

theorem claim_C5_witness :
    (add_item stFilters itemBig).1 = some (MyError.BlockedByFilter itemBig) ∧
    (add_item stFilters itemBig).2 = stFilters := by
  have h := claim_C5 stFilters itemBig
  have hx : ∃ f ∈ stFilters.filter_list,
      f.check_allowed itemBig stFilters.grid = false :=
    ⟨Filter.AvoidTooLarge 3, by decide, rfl⟩
  have h1 := h.1.mpr hx
  exact ⟨h1, h.2.1 h1⟩

/-- Claim C6: check_expired_products returns none exactly when no resident
Fragile item has expired, otherwise exactly the resident Fragile items whose
expiration date is on or before the reference date under calendar order
(year, then month, then day, equal dates counting as expired); the date
(1,1,1999) is expired against references (2,2,1999) and (1,1,1999) but not
against (1,1,1998). -/
theorem claim_C6 (st : State) (d : Date) (it : Item) :
    (check_expired_products st d = none ↔
        ∀ x ∈ residents st, fragileExpired d x = false) ∧
    ((∃ l, check_expired_products st d = some l ∧ it ∈ l) ↔
        it ∈ residents st ∧ fragileExpired d it = true) ∧
    (∀ itemDate refDate : Date,
        isExpired refDate itemDate = true ↔ dateOnOrBefore itemDate refDate) ∧
    isExpired (2, 2, 1999) (1, 1, 1999) = true ∧
    isExpired (1, 1, 1999) (1, 1, 1999) = true ∧
    isExpired (1, 1, 1998) (1, 1, 1999) = false := by
  refine ⟨?_, ?_, ?_, rfl, rfl, rfl⟩
  · rw [check_expired_products]
    by_cases hemp : ((residents st).filter (fragileExpired d)).isEmpty = true
    · rw [if_pos hemp]
      simp only [true_iff]
      intro x hx
      have hnil := List.isEmpty_iff.mp hemp
      have := List.filter_eq_nil_iff.mp hnil x hx
      simpa using this
    · rw [if_neg hemp]
      constructor
      · intro hx
        exact absurd hx (by simp)
      · intro hall
        exfalso
        apply hemp
        rw [List.isEmpty_iff]
        exact List.filter_eq_nil_iff.mpr (fun a ha => by simp [hall a ha])
  · rw [check_expired_products]
    by_cases hemp : ((residents st).filter (fragileExpired d)).isEmpty = true
    · rw [if_pos hemp]
      constructor
      · rintro ⟨l, hl, _⟩
        exact absurd hl (by simp)
      · rintro ⟨hmem, hpred⟩
        exfalso
        have hnil := List.isEmpty_iff.mp hemp
        have hno := List.filter_eq_nil_iff.mp hnil it hmem
        simp [hpred] at hno
    · rw [if_neg hemp]
      constructor
      · rintro ⟨l, hl, hmem⟩
        injection hl with hl
        subst hl
        exact ⟨(List.mem_filter.mp hmem).1, (List.mem_filter.mp hmem).2⟩
      · rintro ⟨hmem, hpred⟩
        exact ⟨_, rfl, List.mem_filter.mpr ⟨hmem, hpred⟩⟩
  · intro itemDate refDate
    obtain ⟨d1, m1, y1⟩ := itemDate
    obtain ⟨d2, m2, y2⟩ := refDate
    simp only [isExpired, dateOnOrBefore, Bool.or_eq_true, Bool.and_eq_true,
      decide_eq_true_eq]
    omega

theorem claim_C6_witness : isExpired (2, 2, 1999) (1, 1, 1999) = true :=
  (claim_C6 Placement.new (1, 1, 1999) itemZero).2.2.2.1

lemma allocPred_false_iff {item : Item} {g : Grid} {q : Coord}
    (hin : inRange q = true) :
    allocPred item g q = false ↔
      ((g q).occupied = true ∨ is_position_valid q item g = false) := by
  rw [allocPred_inRange hin]
  cases h1 : (g q).occupied <;> cases h2 : is_position_valid q item g <;> simp [h1, h2]

lemma origin_lexLt {p : Coord} (h : p ≠ (0, 0, 0)) : lexLt (0, 0, 0) p := by
  obtain ⟨a, b, c⟩ := p
  have hne : ¬ (a = 0 ∧ b = 0 ∧ c = 0) := by
    rintro ⟨rfl, rfl, rfl⟩
    exact h rfl
  simp only [lexLt]
  omega

lemma origin_allocPred (item : Item) (p : Coord)
    (hp : allocPred item Placement.new.grid p = true) :
    allocPred item Placement.new.grid (0, 0, 0) = true := by
  have hin : inRange p = true := by
    by_contra hni
    have hnone : Grid.get? Placement.new.grid p = none := by
      rw [Grid.get?, if_neg (by simpa using hni)]
    rw [allocPred, hnone] at hp
    exact absurd hp (by simp)
  rw [allocPred_inRange hin, Bool.and_eq_true] at hp
  obtain ⟨_, hvalid⟩ := hp
  rw [allocPred_inRange (by decide)]
  rw [Bool.and_eq_true]
  refine ⟨rfl, ?_⟩
  cases hq : item.quality with
  | Normal => simp [is_position_valid, hq]
  | Fragile d mr =>
    rw [is_position_valid, hq] at hvalid ⊢
    simp only [decide_eq_true_eq] at hvalid ⊢
    omega
  | Oversized n =>
    obtain ⟨hz, hn⟩ := oversized_valid_facts hq hvalid
    have hz10 : p.2.2 + n ≤ 10 := hz
    simp only [is_position_valid, hq]
    rw [if_neg (by simp only [MAXPOSITION]; omega :
      ¬ ((0, 0, 0) : Coord).2.2 + n > MAXPOSITION)]
    rw [if_neg hn]
    rfl

/-- Claim C3: allocate returns exactly the first coordinate, in ascending
(row, shelf, zone) lexicographic order over the in-bounds cube, whose cell
is unoccupied and passes the validity test, and none when no such
coordinate exists; on the fresh grid any item that anchors at all anchors
at (0,0,0), and with only (0,0,0) occupied a Normal item anchors at
(0,0,1).  The embedding of allocate is a pure function of the grid, as the
source reads the map through a shared reference only. -/
theorem claim_C3 :
    (∀ (item : Item) (g : Grid) (p : Coord),
        allocate item g = some p ↔
          (inRange p = true ∧ (g p).occupied = false ∧
            is_position_valid p item g = true ∧
            ∀ q : Coord, inRange q = true → lexLt q p →
              ((g q).occupied = true ∨ is_position_valid q item g = false))) ∧
    (∀ (item : Item) (g : Grid),
        allocate item g = none ↔
          ∀ q : Coord, inRange q = true →
            ((g q).occupied = true ∨ is_position_valid q item g = false)) ∧
    (∀ (item : Item) (p : Coord),
        allocate item Placement.new.grid = some p → p = (0, 0, 0)) ∧
    (∀ (i qty : Nat) (nm : String),
        allocate ⟨i, nm, qty, Quality.Normal⟩ stA.grid = some (0, 0, 1)) := by
  have hchar : ∀ (item : Item) (g : Grid) (p : Coord),
      allocate item g = some p ↔
        (p ∈ allPositions ∧ allocPred item g p = true ∧
          ∀ b ∈ allPositions, lexLt b p → allocPred item g b = false) := by
    intro item g p
    rw [allocate]
    exact find_first_sorted (fun {a b} => lexLt_asymm) (allocPred item g)
      allPositions allPositions_pairwise p
  refine ⟨?_, ?_, ?_, ?_⟩
  · intro item g p
    rw [hchar]
    constructor
    · rintro ⟨hmem, hpred, hmin⟩
      have hin := (mem_allPositions p).mp hmem
      rw [allocPred_inRange hin, Bool.and_eq_true, Bool.not_eq_true'] at hpred
      refine ⟨hin, hpred.1, hpred.2, ?_⟩
      intro q hq hlex
      exact (allocPred_false_iff hq).mp (hmin q ((mem_allPositions q).mpr hq) hlex)
    · rintro ⟨hin, hocc, hvalid, hmin⟩
      refine ⟨(mem_allPositions p).mpr hin, ?_, ?_⟩
      · rw [allocPred_inRange hin, hocc, hvalid]
        rfl
      · intro b hb hlex
        have hbin := (mem_allPositions b).mp hb
        exact (allocPred_false_iff hbin).mpr (hmin b hbin hlex)
  · intro item g
    rw [allocate, List.find?_eq_none]
    constructor
    · intro h q hq
      have hf : allocPred item g q = false := by
        cases hb : allocPred item g q with
        | false => rfl
        | true => exact absurd hb (h q ((mem_allPositions q).mpr hq))
      exact (allocPred_false_iff hq).mp hf
    · intro h x hx
      have hin := (mem_allPositions x).mp hx
      rw [(allocPred_false_iff hin).mpr (h x hin)]
      simp
  · intro item p halloc
    by_contra hne
    have hpred := List.find?_some halloc
    have hmin := ((find_first_sorted (fun {a b} => lexLt_asymm)
      (allocPred item Placement.new.grid) allPositions allPositions_pairwise p).mp
      halloc).2.2
    have horig := origin_allocPred item p hpred
    have := hmin (0, 0, 0) ((mem_allPositions _).mpr (by decide)) (origin_lexLt hne)
    rw [horig] at this
    exact absurd this (by simp)
  · intro i qty nm
    rfl

theorem claim_C3_witness :
    allocate ⟨5, "w", 1, Quality.Normal⟩ stA.grid = some (0, 0, 1) :=
  claim_C3.2.2.2 5 1 ("w")

/-- Claim C4: after a successful add the position index holds a non-empty
list for the item whose head is the allocated anchor, the grid holds the
item at the anchor, every listed cell is occupied, a Normal or Fragile item
lists exactly the anchor, and an Oversized item of span n lists exactly the
n zone-contiguous cells of its row and shelf, anchor first, the non-anchor
cells being occupied and resident-free. -/
theorem claim_C4 (st : State) (item : Item)
    (h : (add_item st item).1 = none) :
    ∃ p l,
      allocate item st.grid = some p ∧
      position_search (add_item st item).2 item.id = some l ∧
      l.head? = some p ∧
      ((add_item st item).2.grid p).item = some item ∧
      (∀ c ∈ l, inRange c = true ∧ ((add_item st item).2.grid c).occupied = true) ∧
      (match item.quality with
       | Quality.Oversized n =>
           l.length = n ∧
           l = (List.range' p.2.2 n).map (fun k => (p.1, p.2.1, k)) ∧
           ∀ c ∈ l.tail, ((add_item st item).2.grid c).item = none
       | _ => l = [p]) := by
  obtain ⟨hadm, p, halloc, hst⟩ := add_item_ok_elim h
  obtain ⟨hin, hocc, hvalid⟩ := allocate_some_facts halloc
  obtain ⟨l, h1, h2, h3, h4, h5⟩ := add_core_spec st item p hin hvalid
  refine ⟨p, l, halloc, ?_, h2, ?_, ?_, ?_⟩
  · rw [position_search, hst]
    exact h1
  · rw [hst, h3]
  · intro c hc
    rw [hst]
    exact h4 c hc
  · rw [hst]
    exact h5

def itemW : Item := ⟨7, "Wide", 1, Quality.Oversized 2⟩

theorem claim_C4_witness :
    ∃ p l,
      allocate itemW Placement.new.grid = some p ∧
      position_search (add_item Placement.new itemW).2 itemW.id = some l ∧
      l.head? = some p ∧
      ((add_item Placement.new itemW).2.grid p).item = some itemW ∧
      (∀ c ∈ l, inRange c = true ∧
        ((add_item Placement.new itemW).2.grid c).occupied = true) ∧
      (match itemW.quality with
       | Quality.Oversized n =>
           l.length = n ∧
           l = (List.range' p.2.2 n).map (fun k => (p.1, p.2.1, k)) ∧
           ∀ c ∈ l.tail, ((add_item Placement.new itemW).2.grid c).item = none
       | _ => l = [p]) :=
  claim_C4 Placement.new itemW (by decide)

/-- Claim C9 amended: adding an item whose id is already present succeeds
when filters and strategy succeed, overwrites the id-index and
position-index entries for that id and sets the name-index entry under the
new name to the new item, and every previously occupied coordinate stays
occupied; but when the old and new names differ the old name-index entry is
left untouched (it still references the previously stored item), rather
than being overwritten. -/
theorem claim_C9 (st : State) (item old : Item)
    (hold : st.id_map.lookup item.id = some old)
    (h : (add_item st item).1 = none) :
    id_search (add_item st item).2 item.id = some item ∧
    name_search (add_item st item).2 item.name = some item ∧
    (∃ l, position_search (add_item st item).2 item.id = some l ∧
      l.head? = allocate item st.grid) ∧
    (∀ c : Coord, (st.grid c).occupied = true →
      ((add_item st item).2.grid c).occupied = true) ∧
    (old.name = item.name ∨
      name_search (add_item st item).2 old.name = name_search st old.name) := by
  obtain ⟨hadm, p, halloc, hst⟩ := add_item_ok_elim h
  obtain ⟨hin, hocc, hvalid⟩ := allocate_some_facts halloc
  obtain ⟨hid, hname, _⟩ := add_core_indices st item p
  obtain ⟨l, h1, h2, h3, h4, h5⟩ := add_core_spec st item p hin hvalid
  refine ⟨?_, ?_, ⟨l, ?_, ?_⟩, ?_, ?_⟩
  · rw [id_search, hst, hid]
    exact lookup_listInsert_self ..
  · rw [name_search, hst, hname]
    exact lookup_listInsert_self ..
  · rw [position_search, hst]
    exact h1
  · rw [h2, halloc]
  · intro c hc
    rw [hst]
    exact add_core_occ_mono st item p c hc
  · by_cases hnm : old.name = item.name
    · exact Or.inl hnm
    · refine Or.inr ?_
      rw [name_search, name_search, hst, hname]
      exact lookup_listInsert_ne _ _ _ _ hnm

/-- States for the C9 counterexample: a Normal item with id 2 anchors at
(0,0,0), a Normal item with id 1 anchors at (0,0,1), then id 2 is removed,
leaving (0,0,0) free and (0,0,1) occupied by the id-1 item. -/
def itemP9 : Item := ⟨2, "Ppp", 1, Quality.Normal⟩

def itemA9 : Item := ⟨1, "Aaa", 1, Quality.Normal⟩

def itemB9 : Item := ⟨1, "Bbb", 1, Quality.Oversized 2⟩

def stQ1 : State := (add_item Placement.new itemP9).2

def stQ2 : State := (add_item stQ1 itemA9).2

def stQ3 : State := (remove_item stQ2 2).2

/-- Claim C9 counterexample: in state stQ3 the id 1 belongs to itemA9, which
occupies (0,0,1); adding itemB9 (same id 1, different name, Oversized span
2) succeeds, and afterwards the coordinate (0,0,1) that the previously
stored item occupied is referenced by the new position-index entry, and the
old name-index entry still references the previously stored item, so it is
false that no index entry references the leftover of the old item. -/
theorem claim_C9_counterexample :
    id_search stQ3 1 = some itemA9 ∧
    position_search stQ3 1 = some [(0, 0, 1)] ∧
    (add_item stQ3 itemB9).1 = none ∧
    position_search (add_item stQ3 itemB9).2 1 = some [(0, 0, 0), (0, 0, 1)] ∧
    name_search (add_item stQ3 itemB9).2 ("Aaa") = some itemA9 := by
  decide

theorem claim_C9_witness :
    id_search (add_item stQ3 itemB9).2 itemB9.id = some itemB9 :=
  (claim_C9 stQ3 itemB9 itemA9 (by decide) (by decide)).1

end Market
